import Mathlib

/-!
Verification of the integer-only Elo rating engine in `src/elo.rs`.

The Rust code works on `u64` values. All quantities stay far below `2^64`
for the inputs of interest, so machine words are modelled as `Nat`; the
two unguarded `u64` subtractions in `elo` (which panic on underflow in
debug builds and are flagged as a hazard by the crate's design notes) are
modelled as checked subtraction returning `Option`, making `elo` a total
function into `Option`.  Subtractions that the source guards by a
comparison, or that provably cannot underflow, use plain `Nat`
subtraction.
-/

namespace Elo

/-- Fixed-point constant `ln(10)` scaled by `2^PREC` (`const LN10: u64 = 2358`). -/
def LN10 : Nat := 2358

/-- Fixed-point constant `e` scaled by `2^PREC` (`const E: u64 = 2784`). -/
def E : Nat := 2784

/-- Binary fixed-point precision (`const PREC: u64 = 10`). -/
def PREC : Nat := 10

/-- Loop body of `fp_exp`: `for i in 1..=10 { term = ((term * x) >> PREC) / i;
result += term; if term == 0 { break } }`, with `fuel` counting the remaining
iterations of the range and `i` the current index. -/
def fpExpGo (x : Nat) : Nat → Nat → Nat → Nat → Nat
  | 0, _i, _term, result => result
  | fuel + 1, i, term, result =>
    let term2 := ((term * x) >>> PREC) / i
    if term2 = 0 then result + term2
    else fpExpGo x fuel (i + 1) term2 (result + term2)

/-- `fn fp_exp(x: u64) -> u64`: truncated Taylor series for `e^x`,
starting from `result = 1 << PREC` and `term = 1 << PREC`. -/
def fp_exp (x : Nat) : Nat :=
  fpExpGo x 10 1 (1 <<< PREC) (1 <<< PREC)

/-- `fn fp_exp_int(x: u64) -> u64`: `e^x` for integer `x` by repeated
multiplication `s = (s * E) >> PREC`, starting from `s = 1 << PREC`. -/
def fp_exp_int : Nat → Nat
  | 0 => 1 <<< PREC
  | x + 1 => (fp_exp_int x * E) >>> PREC

/-- `fn fp_pow10(x: u64) -> u64`: `10^x = e^(x·ln 10)`, split into the
integer part `e1` and fractional part `e2` of the converted exponent.
The subtraction `exponent - (e1 << PREC)` cannot underflow because
`e1 = exponent >> PREC`, so plain `Nat` subtraction is exact here. -/
def fp_pow10 (x : Nat) : Nat :=
  let exponent := (x * LN10) >>> PREC
  let e1 := exponent >>> PREC
  let e2 := exponent - (e1 <<< PREC)
  (fp_exp_int e1 * fp_exp e2) >>> PREC

/-- `pub enum Outcomes { WIN, LOSS, DRAW }`, from player one's perspective. -/
inductive Outcomes where
  | WIN
  | LOSS
  | DRAW
  deriving DecidableEq

/-- `Outcomes::to_chess_points`: `WIN → 1 << PREC`, `DRAW → 1 << (PREC-1)`,
`LOSS → 0`. -/
def Outcomes.to_chess_points : Outcomes → Nat
  | .WIN => 1 <<< PREC
  | .DRAW => 1 <<< (PREC - 1)
  | .LOSS => 0

/-- `pub struct EloRating { pub rating: u64 }`. -/
structure EloRating where
  rating : Nat
  deriving DecidableEq

/-- `EloRating::new()`: default rating 1000. -/
def EloRating.new : EloRating := ⟨1000⟩

/-- `pub struct EloConfig { pub k: u64 }`. -/
structure EloConfig where
  k : Nat
  deriving DecidableEq

/-- `EloConfig::new()`: default k-factor 32. -/
def EloConfig.new : EloConfig := ⟨32⟩

/-- Checked unsigned subtraction: the total embedding of a `u64`
subtraction whose underflow is not guarded in the source. -/
def checkedSub (a b : Nat) : Option Nat :=
  if b ≤ a then some (a - b) else none

/-- The `diff` computation at the start of `expected_score`:
`|R1 - R2|` via a comparison-guarded subtraction. -/
def ratingDiff (player_one player_two : EloRating) : Nat :=
  if player_one.rating ≥ player_two.rating then player_one.rating - player_two.rating
  else player_two.rating - player_one.rating

/-- The `exp_one` intermediate of `expected_score`:
`(1 << (PREC + PREC)) / ((1 << PREC) + fp_pow10((diff << PREC) / 400))`. -/
def exp_one (player_one player_two : EloRating) : Nat :=
  (1 <<< (PREC + PREC)) /
    ((1 <<< PREC) + fp_pow10 ((ratingDiff player_one player_two <<< PREC) / 400))

/-- `pub fn expected_score(player_one, player_two) -> u64`.  The final
subtraction `(1 << PREC) - exp_one` is unguarded `u64` subtraction in the
source; it is modelled with `Nat` subtraction, and `exp_one_le` below shows
it never underflows (see claim C7). -/
def expected_score (player_one player_two : EloRating) : Nat :=
  if player_two.rating ≥ player_one.rating then exp_one player_one player_two
  else (1 <<< PREC) - exp_one player_one player_two

/-- `pub fn elo(player_one, player_two, outcome, config) -> (EloRating, EloRating)`.
Both unguarded `u64` subtractions
(`(player_one.rating << PREC) + config.k * outcome - config.k * expected`
and `player_one.rating + player_two.rating - one_new_elo`) are embedded as
`checkedSub`, so the function returns `none` exactly when the Rust code
underflows. -/
def elo (player_one player_two : EloRating) (outcome : Outcomes) (config : EloConfig) :
    Option (EloRating × EloRating) :=
  let expected := expected_score player_one player_two
  let oc := outcome.to_chess_points
  match checkedSub ((player_one.rating <<< PREC) + config.k * oc) (config.k * expected) with
  | none => none
  | some d =>
    let one_new_elo := d >>> PREC
    match checkedSub (player_one.rating + player_two.rating) one_new_elo with
    | none => none
    | some two_new_elo => some (⟨one_new_elo⟩, ⟨two_new_elo⟩)

/-- Variant of the `fp_exp` loop body written exactly as §4.1 of the spec
describes it: `term = (term * x) / (i * S)` with `S = 1 << PREC`.  Used
only to compare against the source's `fpExpGo` (claim C8). -/
def fpExpSpecGo (x : Nat) : Nat → Nat → Nat → Nat → Nat
  | 0, _i, _term, result => result
  | fuel + 1, i, term, result =>
    let term2 := (term * x) / (i * (1 <<< PREC))
    if term2 = 0 then result + term2
    else fpExpSpecGo x fuel (i + 1) term2 (result + term2)

/-- The spec's reference recurrence for `e^x` (§4.1), to be compared with
`fp_exp` (claim C8). -/
def fp_exp_spec (x : Nat) : Nat :=
  fpExpSpecGo x 10 1 (1 <<< PREC) (1 <<< PREC)

/-- `checkedSub a b` succeeds exactly when `b ≤ a`, returning `a - b`. -/
theorem checkedSub_eq_some {a b n : Nat} (h : checkedSub a b = some n) :
    b ≤ a ∧ n = a - b := by
  unfold checkedSub at h
  split at h
  · exact ⟨by assumption, (Option.some.inj h).symm⟩
  · exact absurd h (by simp)

/-- `checkedSub a b` errors exactly when `a < b`. -/
theorem checkedSub_eq_none {a b : Nat} : checkedSub a b = none ↔ a < b := by
  unfold checkedSub
  split
  · simp; omega
  · simp; omega

/-- The `diff` computation is symmetric in the two players. -/
theorem ratingDiff_comm (p1 p2 : EloRating) : ratingDiff p1 p2 = ratingDiff p2 p1 := by
  unfold ratingDiff
  split <;> split <;> omega

/-- For equal ratings the `diff` computation yields 0. -/
theorem ratingDiff_eq_zero {p1 p2 : EloRating} (h : p1.rating = p2.rating) :
    ratingDiff p1 p2 = 0 := by
  unfold ratingDiff
  split <;> omega

/-- The `exp_one` intermediate is symmetric in the two players. -/
theorem exp_one_comm (p1 p2 : EloRating) : exp_one p1 p2 = exp_one p2 p1 := by
  unfold exp_one
  rw [ratingDiff_comm]

/-- For equal ratings `exp_one` computes exactly `S / 2 = 512`. -/
theorem exp_one_eq_512 {p1 p2 : EloRating} (h : p1.rating = p2.rating) :
    exp_one p1 p2 = 512 := by
  unfold exp_one
  rw [ratingDiff_eq_zero h]
  decide

/-- The `exp_one` intermediate never exceeds `S = 1 << PREC`, because its
denominator is at least `1 << PREC`; hence the source's unguarded
subtraction `(1 << PREC) - exp_one` never underflows. -/
theorem exp_one_le (p1 p2 : EloRating) : exp_one p1 p2 ≤ 1 <<< PREC := by
  unfold exp_one
  calc (1 <<< (PREC + PREC)) /
        ((1 <<< PREC) + fp_pow10 ((ratingDiff p1 p2 <<< PREC) / 400))
      ≤ (1 <<< (PREC + PREC)) / (1 <<< PREC) :=
        Nat.div_le_div_left (Nat.le_add_right _ _) (by decide)
    _ = 1 <<< PREC := by decide

/-- The expected score always lies in `[0, S]`. -/
theorem expected_score_le (p1 p2 : EloRating) : expected_score p1 p2 ≤ 1 <<< PREC := by
  unfold expected_score
  split
  · exact exp_one_le p1 p2
  · exact Nat.sub_le _ _

/-- Promoting a rating to fixed point and back is the identity. -/
theorem shiftLeft_shiftRight_cancel (r : Nat) : (r <<< PREC) >>> PREC = r := by
  rw [Nat.shiftLeft_eq, Nat.shiftRight_eq_div_pow]
  exact Nat.mul_div_cancel r (Nat.two_pow_pos PREC)

/-- The two term-update expressions of claim C8 agree pointwise. -/
theorem term_update_eq (term x i : Nat) :
    ((term * x) >>> PREC) / i = (term * x) / (i * (1 <<< PREC)) := by
  rw [Nat.shiftRight_eq_div_pow, Nat.one_shiftLeft, Nat.mul_comm i,
    Nat.div_div_eq_div_mul]

/-- The source loop of `fp_exp` and the spec's reference loop coincide from
any loop state. -/
theorem fpExpGo_eq_spec (x : Nat) :
    ∀ fuel i term result, fpExpGo x fuel i term result = fpExpSpecGo x fuel i term result := by
  intro fuel
  induction fuel with
  | zero => intro i term result; rfl
  | succ n ih =>
    intro i term result
    simp only [fpExpGo, fpExpSpecGo]
    rw [term_update_eq]
    split
    · rfl
    · exact ih (i + 1) _ _

/-- C1: zero-sum conservation.  Whenever `elo` returns a pair of updated
ratings (i.e. neither unsigned subtraction underflows), their sum equals
the sum of the input ratings.  Mutation of inputs is impossible in this
pure embedding, matching the source, which takes shared references and
builds fresh `EloRating` values. -/
theorem c1_zero_sum_conservation (p1 p2 : EloRating) (o : Outcomes) (c : EloConfig)
    (r1 r2 : EloRating) (h : elo p1 p2 o c = some (r1, r2)) :
    r1.rating + r2.rating = p1.rating + p2.rating := by
  simp only [elo] at h
  split at h
  · exact absurd h (by simp)
  · next d hd =>
      split at h
      · exact absurd h (by simp)
      · next two htwo =>
          simp only [Option.some.injEq, Prod.mk.injEq] at h
          obtain ⟨h1, h2⟩ := h
          obtain ⟨hle, hval⟩ := checkedSub_eq_some htwo
          subst h1
          subst h2
          simp only
          omega

theorem c1_zero_sum_conservation_witness : (1016 : Nat) + 984 = 1000 + 1000 :=
  c1_zero_sum_conservation ⟨1000⟩ ⟨1000⟩ Outcomes.WIN ⟨32⟩ ⟨1016⟩ ⟨984⟩ (by decide)

/-- C2: the first subtraction in `elo` (line 210) errors exactly when
`K·expected` exceeds `(R1 << P) + K·actual`; when it does, `elo` as a whole
fails; and the error branch is reachable, e.g. at ratings (0, 0), Outcome
LOSS, K = 32. -/
theorem c2_first_sub_underflow :
    (∀ (p1 p2 : EloRating) (o : Outcomes) (c : EloConfig),
        checkedSub ((p1.rating <<< PREC) + c.k * o.to_chess_points)
            (c.k * expected_score p1 p2) = none ↔
          (p1.rating <<< PREC) + c.k * o.to_chess_points < c.k * expected_score p1 p2)
    ∧ (∀ (p1 p2 : EloRating) (o : Outcomes) (c : EloConfig),
        (p1.rating <<< PREC) + c.k * o.to_chess_points < c.k * expected_score p1 p2 →
          elo p1 p2 o c = none)
    ∧ ((⟨0⟩ : EloRating).rating <<< PREC) + 32 * Outcomes.LOSS.to_chess_points <
        32 * expected_score ⟨0⟩ ⟨0⟩
    ∧ elo ⟨0⟩ ⟨0⟩ Outcomes.LOSS ⟨32⟩ = none := by
  refine ⟨fun p1 p2 o c => checkedSub_eq_none, fun p1 p2 o c h => ?_, by decide, by decide⟩
  have hnone : checkedSub ((p1.rating <<< PREC) + c.k * o.to_chess_points)
      (c.k * expected_score p1 p2) = none := checkedSub_eq_none.mpr h
  simp only [elo, hnone]

theorem c2_first_sub_underflow_witness : elo ⟨0⟩ ⟨0⟩ Outcomes.LOSS ⟨32⟩ = none :=
  c2_first_sub_underflow.2.1 ⟨0⟩ ⟨0⟩ Outcomes.LOSS ⟨32⟩ (by decide)

/-- C3: the concrete scenario `update_ratings(500, 1500, Win, K=32)`
returns `(531, 1469)`. -/
theorem c3_concrete_500_1500_win :
    elo ⟨500⟩ ⟨1500⟩ Outcomes.WIN ⟨32⟩ = some (⟨531⟩, ⟨1469⟩) := by decide

/-- C4: monotonic reward.  Whenever `elo` returns a pair, a WIN gives the
first player at least their old rating and a LOSS gives at most their old
rating, for every rating pair and every K. -/
theorem c4_monotonic_reward (p1 p2 : EloRating) (c : EloConfig) :
    (∀ r1 r2 : EloRating, elo p1 p2 Outcomes.WIN c = some (r1, r2) → p1.rating ≤ r1.rating)
    ∧ (∀ r1 r2 : EloRating, elo p1 p2 Outcomes.LOSS c = some (r1, r2) → r1.rating ≤ p1.rating) := by
  constructor
  · intro r1 r2 h
    simp only [elo] at h
    split at h
    · exact absurd h (by simp)
    · next d hd =>
        split at h
        · exact absurd h (by simp)
        · next two htwo =>
            simp only [Option.some.injEq, Prod.mk.injEq] at h
            obtain ⟨h1, _⟩ := h
            subst h1
            obtain ⟨hle, hval⟩ := checkedSub_eq_some hd
            have hexp : c.k * expected_score p1 p2 ≤ c.k * (1 <<< PREC) :=
              Nat.mul_le_mul_left _ (expected_score_le p1 p2)
            simp only [Outcomes.to_chess_points, Nat.shiftLeft_eq, Nat.shiftRight_eq_div_pow,
              PREC] at hval hexp ⊢
            norm_num at hval hexp ⊢
            omega
  · intro r1 r2 h
    simp only [elo] at h
    split at h
    · exact absurd h (by simp)
    · next d hd =>
        split at h
        · exact absurd h (by simp)
        · next two htwo =>
            simp only [Option.some.injEq, Prod.mk.injEq] at h
            obtain ⟨h1, _⟩ := h
            subst h1
            obtain ⟨hle, hval⟩ := checkedSub_eq_some hd
            simp only [Outcomes.to_chess_points, Nat.shiftLeft_eq, Nat.shiftRight_eq_div_pow,
              PREC] at hval ⊢
            norm_num at hval ⊢
            omega

theorem c4_monotonic_reward_witness : (1000 : Nat) ≤ 1016 ∧ (984 : Nat) ≤ 1000 :=
  ⟨(c4_monotonic_reward ⟨1000⟩ ⟨1000⟩ ⟨32⟩).1 ⟨1016⟩ ⟨984⟩ (by decide),
   (c4_monotonic_reward ⟨1000⟩ ⟨1000⟩ ⟨32⟩).2 ⟨984⟩ ⟨1016⟩ (by decide)⟩

/-- C5: expected-score symmetry.  For every pair of ratings the two
expected scores sum to exactly `S = 1 << PREC = 1024` (so in particular
within ±1 of `S`). -/
theorem c5_expected_score_symmetry (p1 p2 : EloRating) :
    expected_score p1 p2 + expected_score p2 p1 = 1 <<< PREC := by
  unfold expected_score
  rcases Nat.lt_trichotomy p1.rating p2.rating with h | h | h
  · rw [if_pos (Nat.le_of_lt h), if_neg (by omega : ¬ p1.rating ≥ p2.rating),
      exp_one_comm p2 p1]
    exact Nat.add_sub_cancel' (exp_one_le p1 p2)
  · rw [if_pos (Nat.le_of_eq h), if_pos (Nat.le_of_eq h.symm),
      exp_one_eq_512 h, exp_one_eq_512 h.symm]
    decide
  · rw [if_neg (by omega : ¬ p2.rating ≥ p1.rating), if_pos (Nat.le_of_lt h),
      exp_one_comm p2 p1]
    exact Nat.sub_add_cancel (exp_one_le p1 p2)

/-- C6: expected-score midpoint.  For equal ratings `expected_score`
returns exactly `S / 2 = 512`, for every rating. -/
theorem c6_expected_score_midpoint (r : Nat) :
    expected_score ⟨r⟩ ⟨r⟩ = 512 := by
  unfold expected_score
  rw [if_pos (le_refl _)]
  exact exp_one_eq_512 rfl

/-- C7: expected-score range.  `exp_one` never exceeds `S = 1024` (so the
unguarded subtraction `(1 << PREC) - exp_one` in the `R1 > R2` branch never
underflows), and the returned expected score lies in `[0, S]` (the lower
bound is inherent to the unsigned representation). -/
theorem c7_expected_score_range (p1 p2 : EloRating) :
    exp_one p1 p2 ≤ 1 <<< PREC ∧ expected_score p1 p2 ≤ 1 <<< PREC :=
  ⟨exp_one_le p1 p2, expected_score_le p1 p2⟩

/-- C8: `fp_exp` refines the spec's Taylor recurrence.  The code's term
update `((term * x) >> PREC) / i` agrees with the spec's
`(term * x) / (i * S)` for all `term`, `x`, `i` (in particular all
`i ≥ 1`), and the full loop computes the same result as the spec's
recurrence. -/
theorem c8_fp_exp_refines_spec :
    (∀ term x i : Nat, ((term * x) >>> PREC) / i = (term * x) / (i * (1 <<< PREC)))
    ∧ ∀ x : Nat, fp_exp x = fp_exp_spec x :=
  ⟨term_update_eq, fun x => fpExpGo_eq_spec x 10 1 (1 <<< PREC) (1 <<< PREC)⟩

/-- C9: the zero-sum shortcut subtraction (line 211) underflows for some
inputs.  At ratings (0, 0), Outcome WIN, K = 32, the first subtraction
succeeds and gives `one_new_elo = 16384 >> PREC = 16 > 0 + 0`, so the
second subtraction's error branch is taken and `elo` fails; no conserved
pair is returned over unsigned integers. -/
theorem c9_second_sub_underflow :
    checkedSub (((⟨0⟩ : EloRating).rating <<< PREC) + 32 * Outcomes.WIN.to_chess_points)
        (32 * expected_score ⟨0⟩ ⟨0⟩) = some 16384
    ∧ (16384 : Nat) >>> PREC = 16
    ∧ (⟨0⟩ : EloRating).rating + (⟨0⟩ : EloRating).rating < 16
    ∧ checkedSub ((⟨0⟩ : EloRating).rating + (⟨0⟩ : EloRating).rating) 16 = none
    ∧ elo ⟨0⟩ ⟨0⟩ Outcomes.WIN ⟨32⟩ = none := by
  decide

/-- C10: a zero K-factor is the identity update: for every rating pair and
every outcome, `elo` with `k = 0` returns both ratings unchanged. -/
theorem c10_k_zero_identity (p1 p2 : EloRating) (o : Outcomes) (c : EloConfig)
    (h : c.k = 0) : elo p1 p2 o c = some (p1, p2) := by
  have h1 : checkedSub ((p1.rating <<< PREC) + c.k * o.to_chess_points)
      (c.k * expected_score p1 p2) = some (p1.rating <<< PREC) := by
    simp [checkedSub, h]
  have h2 : checkedSub (p1.rating + p2.rating) ((p1.rating <<< PREC) >>> PREC)
      = some p2.rating := by
    rw [shiftLeft_shiftRight_cancel]
    simp [checkedSub]
  simp only [elo]
  split
  · next hnone => rw [h1] at hnone; exact absurd hnone (by simp)
  · next d hd =>
      rw [h1] at hd
      obtain rfl : p1.rating <<< PREC = d := Option.some.inj hd
      split
      · next hnone => rw [h2] at hnone; exact absurd hnone (by simp)
      · next two htwo =>
          rw [h2] at htwo
          obtain rfl : p2.rating = two := Option.some.inj htwo
          rw [shiftLeft_shiftRight_cancel]

theorem c10_k_zero_identity_witness :
    elo ⟨1000⟩ ⟨1200⟩ Outcomes.WIN ⟨0⟩ = some (⟨1000⟩, ⟨1200⟩) :=
  c10_k_zero_identity ⟨1000⟩ ⟨1200⟩ Outcomes.WIN ⟨0⟩ rfl

end Elo
